import Mathlib

/-!
Verification of the rule-evaluation engine of `src/demopr.py`.

The Python module defines a pure predicate `is_snake_case` (a compiled
regular expression), a `CodeReviewer` class holding the source text, an
issue accumulator and a parsed syntax tree, four rule methods
(`check_function_names`, `check_variable_names`, `check_endpoint_rules`,
`check_db_session_rules`) that walk the tree breadth-first with `ast.walk`
and append message strings, and a driver `run_checks` that runs the four
rules in a fixed order and returns the accumulator.

This file embeds those definitions shallowly: the syntax tree becomes a
nested inductive `Node`, `ast.walk` becomes the breadth-first `walkFrom`,
Python's `in` on strings becomes `containsSub`, the regular-expression
call becomes a small matcher `reFn` over the translated pattern, and the
stateful methods become explicit state transformers over a `CodeReviewer`
structure.  All definitions are executable.
-/

/-- Python's substring containment: `startsWithL n h` is true when `n` is an
initial segment of `h` (helper for `containsSub`). -/
def startsWithL : List Char → List Char → Bool
  | [], _ => true
  | _ :: _, [] => false
  | a :: as, b :: bs => a == b && startsWithL as bs

/-- Python's `needle in hay` on strings: some suffix of `hay` starts with
`needle`. -/
def containsSub (needle : List Char) : List Char → Bool
  | [] => startsWithL needle []
  | c :: rest => startsWithL needle (c :: rest) || containsSub needle rest

/-- Python's `str.splitlines` restricted to `'\n'` separators (the only line
separator occurring in the texts the engine is run on): `""` yields no lines
and a trailing newline does not produce a trailing empty line. -/
def splitlines : List Char → List (List Char)
  | [] => []
  | c :: rest =>
    if c == '\n' then [] :: splitlines rest
    else
      match splitlines rest with
      | [] => [[c]]
      | l :: ls => (c :: l) :: ls

/-- Python's `"\n".join(lines)`. -/
def joinNL : List (List Char) → List Char
  | [] => []
  | [l] => l
  | l :: ls => l ++ '\n' :: joinNL ls

/-- One element of the translated regular expression `^[a-z_][a-z0-9_]*$`:
a begin anchor, an end anchor, a character class, or a starred character
class. -/
inductive RElem where
  | bol : RElem
  | eol : RElem
  | cls : (Char → Bool) → RElem
  | star : (Char → Bool) → RElem

/-- Backtracking loop for a starred class: succeed if the continuation `k`
accepts here, or consume one class character and repeat. -/
def starRun (k : List Char → Nat → Bool) (f : Char → Bool) : List Char → Nat → Bool
  | [], pos => k [] pos
  | c :: r, pos => k (c :: r) pos || (f c && starRun k f r (pos + 1))

/-- The matcher for a pattern, CPython `re` semantics for the constructs the
pattern uses: `^` matches only at position `0`; `$` matches at the end of the
string or just before a newline that is the last character; classes consume
one character; `*` is a backtracking repetition. -/
def reFn : List RElem → List Char → Nat → Bool
  | [], _, _ => true
  | RElem.bol :: ps, rest, pos => (pos == 0) && reFn ps rest pos
  | RElem.eol :: ps, rest, pos => (rest.isEmpty || rest == ['\n']) && reFn ps rest pos
  | RElem.cls f :: ps, rest, pos =>
    match rest with
    | [] => false
    | c :: r => f c && reFn ps r (pos + 1)
  | RElem.star f :: ps, rest, pos => starRun (reFn ps) f rest pos

/-- `re.match(pattern, s)` viewed as a Boolean: the pattern matches a prefix
of `s` starting at position `0`. -/
def re_match (p : List RElem) (s : List Char) : Bool := reFn p s 0

/-- The class `[a-z_]` of the pattern. -/
def isSnakeStart (c : Char) : Bool := ('a' ≤ c && c ≤ 'z') || c == '_'

/-- The class `[a-z0-9_]` of the pattern. -/
def isSnakeCont (c : Char) : Bool :=
  ('a' ≤ c && c ≤ 'z') || ('0' ≤ c && c ≤ '9') || c == '_'

/-- `snake_case_pattern = re.compile(r"^[a-z_][a-z0-9_]*$")`, element by
element. -/
def snake_case_pattern : List RElem :=
  [RElem.bol, RElem.cls isSnakeStart, RElem.star isSnakeCont, RElem.eol]

/-- `is_snake_case(name)`: `bool(snake_case_pattern.match(name))`. -/
def is_snake_case (name : String) : Bool := re_match snake_case_pattern name.data

/-- Whole-list lower-snake-case match: non-empty, first character in
`[a-z_]`, all remaining characters in `[a-z0-9_]`. -/
def snakeFull : List Char → Bool
  | [] => false
  | c :: r => isSnakeStart c && r.all isSnakeCont

/-- The Identifier Classifier as the specification words it: `S` matches
`^[a-z_][a-z0-9_]*$` as a whole-string match. -/
def wholeSnakeSpec (s : String) : Bool := snakeFull s.data

/-- Syntax-tree nodes, the closed set of `ast` variants the engine
inspects: `Module`, `FunctionDef` (name, default-argument expressions,
decorator list, body, 1-based first and last source line), `Assign`,
`Try`, `If`, `Call`, `Attribute`, `Name`, `Tuple` and an opaque constant. -/
inductive Node where
  | module : List Node → Node
  | functionDef : String → List Node → List Node → List Node → Nat → Nat → Node
  | assign : List Node → Node → Node
  | tryStmt : List Node → List Node → List Node → List Node → Node
  | ifStmt : Node → List Node → List Node → Node
  | call : Node → List Node → Node
  | attributeAccess : Node → String → Node
  | name : String → Node
  | tuple : List Node → Node
  | const : Node

/-- `ast.iter_child_nodes`, in field order (for `FunctionDef`: argument
defaults, then body, then decorator list). -/
def children : Node → List Node
  | Node.module b => b
  | Node.functionDef _ defaults decs body _ _ => defaults ++ body ++ decs
  | Node.assign targets value => targets ++ [value]
  | Node.tryStmt b h o f => b ++ h ++ o ++ f
  | Node.ifStmt t b o => t :: (b ++ o)
  | Node.call f args => f :: args
  | Node.attributeAccess v _ => [v]
  | Node.name _ => []
  | Node.tuple elts => elts
  | Node.const => []

mutual
/-- Number of nodes in a subtree (termination measure for the traversal). -/
def nodeSize : Node → Nat
  | Node.module b => 1 + listNodeSize b
  | Node.functionDef _ d c b _ _ => 1 + listNodeSize d + listNodeSize b + listNodeSize c
  | Node.assign t v => 1 + listNodeSize t + nodeSize v
  | Node.tryStmt b h o f => 1 + listNodeSize b + listNodeSize h + listNodeSize o + listNodeSize f
  | Node.ifStmt t b o => 1 + nodeSize t + listNodeSize b + listNodeSize o
  | Node.call f a => 1 + nodeSize f + listNodeSize a
  | Node.attributeAccess v _ => 1 + nodeSize v
  | Node.name _ => 1
  | Node.tuple e => 1 + listNodeSize e
  | Node.const => 1

/-- Total number of nodes in a forest. -/
def listNodeSize : List Node → Nat
  | [] => 0
  | n :: l => nodeSize n + listNodeSize l
end

/-- Fuelled breadth-first traversal: pop the queue head, yield it, push its
children at the back.  The fuel only serves termination; `walkFrom` always
supplies enough of it (see `walkFrom_cons`). -/
def walkFromF : Nat → List Node → List Node
  | _, [] => []
  | 0, _ :: _ => []
  | fuel + 1, n :: q => n :: walkFromF fuel (q ++ children n)

/-- Breadth-first traversal of a queue of roots. -/
def walkFrom (l : List Node) : List Node := walkFromF (listNodeSize l) l

/-- `ast.walk(n)`: `n` followed by all its descendants, breadth-first. -/
def walk (n : Node) : List Node := walkFrom [n]

/-- `isinstance(n, ast.Try)`. -/
def isTryNode : Node → Bool
  | Node.tryStmt _ _ _ _ => true
  | _ => false

/-- `isinstance(n, ast.If)`. -/
def isIfNode : Node → Bool
  | Node.ifStmt _ _ _ => true
  | _ => false

/-- `isinstance(n, ast.Call) and hasattr(n.func, "id") and n.func.id in
["json", "jsonify"]`: only `Name` callees carry an `id`. -/
def isJsonCall : Node → Bool
  | Node.call (Node.name i) _ => i == "json" || i == "jsonify"
  | _ => false

/-- `isinstance(dec, ast.Call) and hasattr(dec.func, "attr") and
dec.func.attr == "route"`: only `Attribute` callees carry an `attr`. -/
def isRouteDec : Node → Bool
  | Node.call (Node.attributeAccess _ a) _ => a == "route"
  | _ => false

/-- `isinstance(t, ast.Name)`. -/
def isNameNode : Node → Bool
  | Node.name _ => true
  | _ => false

/-- Message of the function-name check. -/
def fnMsg (n : String) : String :=
  "Function name `" ++ n ++ "` must be lower_snake_case."

/-- Message of the variable-name check. -/
def varMsg (n : String) : String :=
  "Variable name `" ++ n ++ "` must be lower_snake_case."

/-- Message of the endpoint try/except check. -/
def epTryMsg (n : String) : String :=
  "Endpoint `" ++ n ++ "` missing try/except block."

/-- Message of the endpoint JSON-response check. -/
def epJsonMsg (n : String) : String :=
  "Endpoint `" ++ n ++ "` must return a JSON response."

/-- Message of the endpoint validation-first check. -/
def epValMsg (n : String) : String :=
  "Endpoint `" ++ n ++ "` must have a validation check at the top."

/-- Message of the resource-lifecycle cleanup check. -/
def dbCloseMsg (n : String) : String :=
  "Function `" ++ n ++ "` must close DB sessions in a finally block."

/-- Message of the resource-lifecycle rollback check. -/
def dbRbMsg (n : String) : String :=
  "Function `" ++ n ++ "` does DB writes but is missing rollback in except block."

/-- A one-character string holding U+0027, used to spell the message text
the specification describes. -/
def singleQuote : String := String.mk [Char.ofNat 39]

/-- An append-only loop: `for n in l: acc += f n`, starting from `init`. -/
def collect (f : Node → List String) (l : List Node) (init : List String) : List String :=
  l.foldl (fun acc n => acc ++ f n) init

/-- Per-node issues of `check_function_names`: a `FunctionDef` whose name
fails `is_snake_case` yields one message. -/
def fn_node_issues : Node → List String
  | Node.functionDef nm _ _ _ _ _ => if is_snake_case nm then [] else [fnMsg nm]
  | _ => []

/-- Per-target issues of `check_variable_names`: only a `Name` target is
examined; any other target shape is skipped. -/
def assign_target_issues : Node → List String
  | Node.name i => if is_snake_case i then [] else [varMsg i]
  | _ => []

/-- Per-node issues of `check_variable_names`: an `Assign` contributes the
issues of each of its targets in order. -/
def var_node_issues : Node → List String
  | Node.assign targets _ => collect assign_target_issues targets []
  | _ => []

/-- Per-node issues of `check_endpoint_rules`: for a `FunctionDef` with a
`route` decorator, the try/except check and the JSON check over
`ast.walk(node)`, then the first-statement check (`first_stmt` is `None`
when the body is empty, and `None` is falsy). -/
def ep_node_issues : Node → List String
  | Node.functionDef nm defaults decs body a b =>
    if decs.any isRouteDec then
      (if (walk (Node.functionDef nm defaults decs body a b)).any isTryNode then []
       else [epTryMsg nm]) ++
      (if (walk (Node.functionDef nm defaults decs body a b)).any isJsonCall then []
       else [epJsonMsg nm]) ++
      (match body with
       | [] => []
       | s :: _ => if isIfNode s then [] else [epValMsg nm])
    else []
  | _ => []

/-- The body of the `check_db_session_rules` loop, as a function of the
function name and its raw-text slice `func_code`. -/
def db_func_issues (nm : String) (func_code : List Char) : List String :=
  if containsSub ("getDbSession".data) func_code
      || containsSub ("create_dbsession_pg".data) func_code then
    (if !containsSub ("finally".data) func_code
        || !containsSub (".close()".data) func_code then [dbCloseMsg nm] else []) ++
    (if containsSub ("add".data) func_code
        || containsSub ("update".data) func_code
        || containsSub ("insert".data) func_code then
      (if !containsSub ("except".data) func_code
          || !containsSub (".rollback()".data) func_code then [dbRbMsg nm] else [])
     else [])
  else []

/-- Per-node issues of `check_db_session_rules`:
`"\n".join(code_lines[node.lineno - 1 : node.end_lineno])` fed to
`db_func_issues`. -/
def db_node_issues (code_lines : List (List Char)) : Node → List String
  | Node.functionDef nm _ _ _ lineno end_lineno =>
    db_func_issues nm
      (joinNL ((code_lines.drop (lineno - 1)).take (end_lineno - (lineno - 1))))
  | _ => []

/-- The `CodeReviewer` state: the raw source text, the issue accumulator
(empty in a fresh instance) and the parsed tree (produced by the external
parser). -/
structure CodeReviewer where
  code : String
  issues : List String
  tree : Node

/-- `check_function_names`: walk the tree, appending one message per
badly-named `FunctionDef`. -/
def check_function_names (st : CodeReviewer) : CodeReviewer :=
  { st with issues := collect fn_node_issues (walk st.tree) st.issues }

/-- `check_variable_names`: walk the tree, appending one message per
badly-named plain `Name` assignment target. -/
def check_variable_names (st : CodeReviewer) : CodeReviewer :=
  { st with issues := collect var_node_issues (walk st.tree) st.issues }

/-- `check_endpoint_rules`: walk the tree, appending the endpoint issues of
each route-decorated `FunctionDef`. -/
def check_endpoint_rules (st : CodeReviewer) : CodeReviewer :=
  { st with issues := collect ep_node_issues (walk st.tree) st.issues }

/-- `check_db_session_rules`: split the raw text into lines once, then walk
the tree appending the lifecycle issues of each `FunctionDef`'s slice. -/
def check_db_session_rules (st : CodeReviewer) : CodeReviewer :=
  { st with issues :=
      collect (db_node_issues (splitlines st.code.data)) (walk st.tree) st.issues }

/-- `run_checks`: the four rules in their fixed order; the Python method
returns `self.issues`, i.e. the `issues` field of the resulting state. -/
def run_checks (st : CodeReviewer) : CodeReviewer :=
  check_db_session_rules (check_endpoint_rules (check_variable_names (check_function_names st)))

/-! ### Structural lemmas about the traversal -/

lemma listNodeSize_append (l1 l2 : List Node) :
    listNodeSize (l1 ++ l2) = listNodeSize l1 + listNodeSize l2 := by
  induction l1 with
  | nil => simp [listNodeSize]
  | cons n l ih => simp [listNodeSize, ih]; omega

lemma one_le_nodeSize (n : Node) : 1 ≤ nodeSize n := by
  cases n <;> simp [nodeSize] <;> omega

lemma children_size_lt (n : Node) : listNodeSize (children n) < nodeSize n := by
  cases n <;> simp [children, nodeSize, listNodeSize, listNodeSize_append] <;> omega

lemma queue_step_lt (n : Node) (q : List Node) :
    listNodeSize (q ++ children n) < listNodeSize (n :: q) := by
  have h1 := children_size_lt n
  simp [listNodeSize, listNodeSize_append]
  omega

lemma walkFromF_irrel :
    ∀ (f1 f2 : Nat) (l : List Node), listNodeSize l ≤ f1 → listNodeSize l ≤ f2 →
      walkFromF f1 l = walkFromF f2 l := by
  intro f1
  induction f1 with
  | zero =>
    intro f2 l h1 _
    cases l with
    | nil => cases f2 <;> simp [walkFromF]
    | cons n q =>
      exfalso
      have := one_le_nodeSize n
      simp [listNodeSize] at h1
      omega
  | succ f1 ih =>
    intro f2 l h1 h2
    cases l with
    | nil => cases f2 <;> simp [walkFromF]
    | cons n q =>
      cases f2 with
      | zero =>
        exfalso
        have := one_le_nodeSize n
        simp [listNodeSize] at h2
        omega
      | succ f2 =>
        simp only [walkFromF, List.cons.injEq, true_and]
        have hlt := queue_step_lt n q
        exact ih f2 (q ++ children n) (by omega) (by omega)

lemma walkFrom_nil : walkFrom [] = [] := rfl

lemma walkFrom_cons (n : Node) (q : List Node) :
    walkFrom (n :: q) = n :: walkFrom (q ++ children n) := by
  unfold walkFrom
  have h1 : 1 ≤ listNodeSize (n :: q) := by
    have := one_le_nodeSize n
    simp [listNodeSize]
    omega
  obtain ⟨m, hm⟩ : ∃ m, listNodeSize (n :: q) = m + 1 :=
    ⟨listNodeSize (n :: q) - 1, by omega⟩
  rw [hm]
  simp only [walkFromF, List.cons.injEq, true_and]
  have hlt := queue_step_lt n q
  exact walkFromF_irrel m (listNodeSize (q ++ children n)) (q ++ children n)
    (by omega) (le_refl _)

lemma walk_eq (n : Node) : walk n = n :: walkFrom (children n) := by
  unfold walk
  rw [walkFrom_cons]
  simp

lemma walkFrom_any_aux (p : Node → Bool) :
    ∀ (N : Nat) (l : List Node), listNodeSize l ≤ N →
      (walkFrom l).any p = l.any (fun n => (walk n).any p) := by
  intro N
  induction N with
  | zero =>
    intro l h
    cases l with
    | nil => simp [walkFrom_nil]
    | cons n q =>
      exfalso
      have := one_le_nodeSize n
      simp [listNodeSize] at h
      omega
  | succ N ih =>
    intro l h
    cases l with
    | nil => simp [walkFrom_nil]
    | cons n q =>
      rw [walkFrom_cons]
      have hq : listNodeSize (q ++ children n) ≤ N := by
        have := queue_step_lt n q
        omega
      have hc : listNodeSize (children n) ≤ N := by
        have h1 := children_size_lt n
        have h2 : listNodeSize (n :: q) = nodeSize n + listNodeSize q := rfl
        omega
      have hq2 : listNodeSize q ≤ N := by
        have := one_le_nodeSize n
        have h2 : listNodeSize (n :: q) = nodeSize n + listNodeSize q := rfl
        omega
      simp only [List.any_cons, ih _ hq, List.any_append]
      have hwalk : (walk n).any p = (p n || (walkFrom (children n)).any p) := by
        rw [walk_eq]
        simp
      rw [hwalk, ih _ hc]
      cases p n <;> cases q.any (fun n => (walk n).any p) <;>
        cases (children n).any (fun n => (walk n).any p) <;> rfl

lemma walkFrom_any (p : Node → Bool) (l : List Node) :
    (walkFrom l).any p = l.any (fun n => (walk n).any p) :=
  walkFrom_any_aux p (listNodeSize l) l (le_refl _)

lemma walkFrom_append_any (p : Node → Bool) (l1 l2 : List Node) :
    (walkFrom (l1 ++ l2)).any p = ((walkFrom l1).any p || (walkFrom l2).any p) := by
  rw [walkFrom_any, walkFrom_any, walkFrom_any, List.any_append]

lemma walk_any (p : Node → Bool) (n : Node) :
    (walk n).any p = (p n || (walkFrom (children n)).any p) := by
  rw [walk_eq]
  simp

/-! ### Lemmas about the accumulation loop -/

lemma collect_eq_append (f : Node → List String) (l : List Node) :
    ∀ init, collect f l init = init ++ collect f l [] := by
  induction l with
  | nil => intro init; simp [collect]
  | cons n l ih =>
    intro init
    have h1 : collect f (n :: l) init = collect f l (init ++ f n) := rfl
    have h2 : collect f (n :: l) [] = collect f l (f n) := by
      simp [collect]
    rw [h1, h2, ih (init ++ f n), ih (f n), List.append_assoc]

lemma mem_collect (f : Node → List String) (l : List Node) (x : String) :
    x ∈ collect f l [] ↔ ∃ n, n ∈ l ∧ x ∈ f n := by
  induction l with
  | nil => simp [collect]
  | cons n l ih =>
    have h2 : collect f (n :: l) [] = f n ++ collect f l [] := by
      have : collect f (n :: l) [] = collect f l (f n) := by simp [collect]
      rw [this, collect_eq_append]
    rw [h2]
    simp only [List.mem_append, ih, List.mem_cons]
    constructor
    · rintro (hx | ⟨m, hm, hxm⟩)
      · exact ⟨n, Or.inl rfl, hx⟩
      · exact ⟨m, Or.inr hm, hxm⟩
    · rintro ⟨m, (rfl | hm), hxm⟩
      · exact Or.inl hxm
      · exact Or.inr ⟨m, hm, hxm⟩

/-! ### Message disjointness -/

lemma append_ne (p n s1 s2 : String) (h : s1 ≠ s2) : p ++ n ++ s1 ≠ p ++ n ++ s2 := by
  intro he
  apply h
  apply String.ext
  have hd : (p ++ n ++ s1).data = (p ++ n ++ s2).data := congrArg String.data he
  rw [String.data_append, String.data_append, String.data_append, String.data_append] at hd
  exact List.append_cancel_left hd

lemma epTryMsg_ne_epJsonMsg (n : String) : epTryMsg n ≠ epJsonMsg n := by
  have h : ("` missing try/except block." : String) ≠ "` must return a JSON response." := by decide
  exact append_ne "Endpoint `" n _ _ h

lemma epTryMsg_ne_epValMsg (n : String) : epTryMsg n ≠ epValMsg n := by
  have h : ("` missing try/except block." : String) ≠ "` must have a validation check at the top." := by decide
  exact append_ne "Endpoint `" n _ _ h

lemma epJsonMsg_ne_epValMsg (n : String) : epJsonMsg n ≠ epValMsg n := by
  have h : ("` must return a JSON response." : String) ≠ "` must have a validation check at the top." := by decide
  exact append_ne "Endpoint `" n _ _ h

lemma dbCloseMsg_ne_dbRbMsg (n : String) : dbCloseMsg n ≠ dbRbMsg n := by
  have h : ("` must close DB sessions in a finally block." : String) ≠ "` does DB writes but is missing rollback in except block." := by decide
  exact append_ne "Function `" n _ _ h

/-! ### Characterisation of the regular-expression matcher -/

lemma starRun_eol_iff (f : Char → Bool) :
    ∀ (rest : List Char) (pos : Nat),
      starRun (reFn [RElem.eol]) f rest pos = true ↔
        (rest.all f = true ∨ ∃ m, rest = m ++ ['\n'] ∧ m.all f = true) := by
  intro rest
  induction rest with
  | nil =>
    intro pos
    have h1 : starRun (reFn [RElem.eol]) f [] pos = true := rfl
    rw [h1]
    simp
  | cons c r ih =>
    intro pos
    have hs : starRun (reFn [RElem.eol]) f (c :: r) pos
        = (reFn [RElem.eol] (c :: r) pos || (f c && starRun (reFn [RElem.eol]) f r (pos + 1))) :=
      rfl
    have h0 : reFn [RElem.eol] (c :: r) pos = ((c :: r) == ['\n']) := by
      simp [reFn]
    rw [hs, h0, Bool.or_eq_true, Bool.and_eq_true, ih (pos + 1), beq_iff_eq]
    constructor
    · rintro (hceq | ⟨hfc, hall | ⟨m, rfl, hallm⟩⟩)
      · injection hceq with h1 h2
        subst h2
        subst h1
        exact Or.inr ⟨[], rfl, rfl⟩
      · exact Or.inl (by rw [List.all_cons, hfc, hall]; rfl)
      · exact Or.inr ⟨c :: m, rfl, by rw [List.all_cons, hfc, hallm]; rfl⟩
    · rintro (hall | ⟨m, hm, hallm⟩)
      · rw [List.all_cons, Bool.and_eq_true] at hall
        exact Or.inr ⟨hall.1, Or.inl hall.2⟩
      · cases m with
        | nil =>
          rw [List.nil_append] at hm
          exact Or.inl hm
        | cons d m2 =>
          rw [List.cons_append] at hm
          injection hm with h1 h2
          subst h1
          rw [List.all_cons, Bool.and_eq_true] at hallm
          exact Or.inr ⟨hallm.1, Or.inr ⟨m2, h2, hallm.2⟩⟩

lemma is_snake_case_iff (s : String) :
    is_snake_case s = true ↔
      (snakeFull s.data = true ∨ ∃ m, s.data = m ++ ['\n'] ∧ snakeFull m = true) := by
  have hunfold : is_snake_case s = reFn snake_case_pattern s.data 0 := rfl
  rw [hunfold]
  cases hl : s.data with
  | nil =>
    have h1 : reFn snake_case_pattern ([] : List Char) 0 = false := rfl
    rw [h1]
    constructor
    · intro h
      exact absurd h (by simp)
    · rintro (h | ⟨m, hm, _⟩)
      · rw [show snakeFull [] = false from rfl] at h
        exact absurd h (by simp)
      · exact absurd hm (by simp)
  | cons c r =>
    have h1 : reFn snake_case_pattern (c :: r) 0
        = (isSnakeStart c && starRun (reFn [RElem.eol]) isSnakeCont r 1) := rfl
    have hsf : ∀ (d : Char) (l : List Char),
        snakeFull (d :: l) = (isSnakeStart d && l.all isSnakeCont) := fun _ _ => rfl
    rw [h1, Bool.and_eq_true, starRun_eol_iff]
    constructor
    · rintro ⟨hst, hall | ⟨m, rfl, hallm⟩⟩
      · exact Or.inl (by rw [hsf, hst, hall]; rfl)
      · exact Or.inr ⟨c :: m, rfl, by rw [hsf, hst, hallm]; rfl⟩
    · rintro (h | ⟨m, hm, hallm⟩)
      · rw [hsf, Bool.and_eq_true] at h
        exact ⟨h.1, Or.inl h.2⟩
      · cases m with
        | nil =>
          rw [show snakeFull [] = false from rfl] at hallm
          exact absurd hallm (by simp)
        | cons d m2 =>
          rw [List.cons_append] at hm
          injection hm with h1 h2
          subst h1
          rw [hsf, Bool.and_eq_true] at hallm
          exact ⟨hallm.1, Or.inr ⟨m2, h2, hallm.2⟩⟩

/-! ### Per-rule unfolding lemmas -/

lemma ep_node_issues_route (nm : String) (defaults decs body : List Node) (a b : Nat)
    (h : decs.any isRouteDec = true) :
    ep_node_issues (Node.functionDef nm defaults decs body a b) =
      (if (walk (Node.functionDef nm defaults decs body a b)).any isTryNode then []
       else [epTryMsg nm]) ++
      (if (walk (Node.functionDef nm defaults decs body a b)).any isJsonCall then []
       else [epJsonMsg nm]) ++
      (match body with
       | [] => []
       | s :: _ => if isIfNode s then [] else [epValMsg nm]) := by
  simp [ep_node_issues, h]

lemma assign_target_issues_of_not_name (t : Node) (h : isNameNode t = false) :
    assign_target_issues t = [] := by
  cases t <;> simp_all [assign_target_issues, isNameNode]

lemma collect_nil_of_all_nil (f : Node → List String) (l : List Node)
    (h : ∀ n ∈ l, f n = []) : collect f l [] = [] := by
  induction l with
  | nil => simp [collect]
  | cons n l ih =>
    have h2 : collect f (n :: l) [] = f n ++ collect f l [] := by
      have h3 : collect f (n :: l) [] = collect f l (f n) := by simp [collect]
      rw [h3, collect_eq_append]
    rw [h2, h n (List.mem_cons_self n l), ih (fun m hm => h m (List.mem_cons_of_mem n hm))]
    rfl

/-! ### State-transformer lemmas for the four rules and the driver -/

lemma check_fn_state (st : CodeReviewer) :
    check_function_names st =
      { st with issues := st.issues ++ collect fn_node_issues (walk st.tree) [] } := by
  unfold check_function_names
  rw [collect_eq_append]

lemma check_var_state (st : CodeReviewer) :
    check_variable_names st =
      { st with issues := st.issues ++ collect var_node_issues (walk st.tree) [] } := by
  unfold check_variable_names
  rw [collect_eq_append]

lemma check_ep_state (st : CodeReviewer) :
    check_endpoint_rules st =
      { st with issues := st.issues ++ collect ep_node_issues (walk st.tree) [] } := by
  unfold check_endpoint_rules
  rw [collect_eq_append]

lemma check_db_state (st : CodeReviewer) :
    check_db_session_rules st =
      { st with issues := st.issues ++
          collect (db_node_issues (splitlines st.code.data)) (walk st.tree) [] } := by
  unfold check_db_session_rules
  rw [collect_eq_append]

lemma run_checks_state (st : CodeReviewer) :
    run_checks st =
      { st with issues := st.issues ++
          (collect fn_node_issues (walk st.tree) [] ++
           collect var_node_issues (walk st.tree) [] ++
           collect ep_node_issues (walk st.tree) [] ++
           collect (db_node_issues (splitlines st.code.data)) (walk st.tree) []) } := by
  cases st with
  | mk code issues tree =>
    simp [run_checks, check_fn_state, check_var_state, check_ep_state, check_db_state,
      List.append_assoc]

/-! ### Claim C3 -/

/-- Claim C3 counterexample: `is_snake_case "foo\n"` returns true although
`"foo\n"` does not match `^[a-z_][a-z0-9_]*$` as a whole-string match —
`re.match`'s `$` also accepts the position just before a trailing newline,
so the claimed equivalence with the whole-string match fails at `"foo\n"`. -/
theorem c3_counterexample :
    is_snake_case "foo\n" = true ∧ wholeSnakeSpec "foo\n" = false := by
  decide

/-- Claim C3 (amended): `is_snake_case S` is true iff `S` wholly matches
`[a-z_][a-z0-9_]*`, or `S` is such a whole match followed by exactly one
trailing newline character. -/
theorem c3_snake_case_characterisation (s : String) :
    is_snake_case s = true ↔
      (wholeSnakeSpec s = true ∨ ∃ m, s.data = m ++ ['\n'] ∧ snakeFull m = true) :=
  is_snake_case_iff s

/-! ### Claim C5 -/

/-- Claim C5: for any function name and raw-text slice, the Resource
Lifecycle Rule emits the missing-close issue iff an acquisition substring is
present and `"finally"` or `".close()"` is absent; it independently emits
the missing-rollback issue iff an acquisition substring is present, one of
`"add"`/`"update"`/`"insert"` is present, and `"except"` or `".rollback()"`
is absent; a slice without acquisition substrings yields no issues; and the
`create_dbsession_pg`/`insert`/`finally`/`.close()` slice without
`except`/`.rollback()` yields exactly the rollback issue. -/
theorem c5_db_lifecycle (nm : String) (s : List Char) :
    ((containsSub ("getDbSession".data) s
        || containsSub ("create_dbsession_pg".data) s) = false →
      db_func_issues nm s = [])
    ∧ (dbCloseMsg nm ∈ db_func_issues nm s ↔
        ((containsSub ("getDbSession".data) s
            || containsSub ("create_dbsession_pg".data) s) = true ∧
         (containsSub ("finally".data) s = false
            ∨ containsSub (".close()".data) s = false)))
    ∧ (dbRbMsg nm ∈ db_func_issues nm s ↔
        ((containsSub ("getDbSession".data) s
            || containsSub ("create_dbsession_pg".data) s) = true ∧
         (containsSub ("add".data) s || containsSub ("update".data) s
            || containsSub ("insert".data) s) = true ∧
         (containsSub ("except".data) s = false
            ∨ containsSub (".rollback()".data) s = false)))
    ∧ (containsSub ("create_dbsession_pg".data) s = true →
       containsSub ("insert".data) s = true →
       containsSub ("finally".data) s = true →
       containsSub (".close()".data) s = true →
       containsSub ("except".data) s = false →
       containsSub (".rollback()".data) s = false →
       db_func_issues nm s = [dbRbMsg nm]) := by
  cases hacq : (containsSub ("getDbSession".data) s
      || containsSub ("create_dbsession_pg".data) s) <;>
  cases hfin : containsSub ("finally".data) s <;>
  cases hcl : containsSub (".close()".data) s <;>
  cases hw : (containsSub ("add".data) s || containsSub ("update".data) s
      || containsSub ("insert".data) s) <;>
  cases he : containsSub ("except".data) s <;>
  cases hr : containsSub (".rollback()".data) s <;>
  simp_all [db_func_issues, dbCloseMsg_ne_dbRbMsg nm, (dbCloseMsg_ne_dbRbMsg nm).symm]

/-- Claim C5 witness: the fourth clause at the slice
`"create_dbsession_pg insert finally .close()"` yields exactly the rollback
issue, and the first clause at `"update everything"` (no acquisition) yields
no issue. -/
theorem c5_db_lifecycle_witness :
    db_func_issues "f" ("create_dbsession_pg insert finally .close()".data) = [dbRbMsg "f"] ∧
    db_func_issues "g" ("update everything".data) = [] := by
  constructor
  · exact (c5_db_lifecycle "f" ("create_dbsession_pg insert finally .close()".data)).2.2.2
      (by decide) (by decide) (by decide) (by decide) (by decide) (by decide)
  · exact (c5_db_lifecycle "g" ("update everything".data)).1 (by decide)

/-! ### Claim C7 -/

/-- Claim C7: a non-`Name` assignment target contributes no variable-naming
issue, and an `Assign` all of whose targets are non-`Name` contributes no
variable-naming issue at all, whatever identifiers occur inside the
targets. -/
theorem c7_non_name_targets :
    (∀ t, isNameNode t = false → assign_target_issues t = []) ∧
    (∀ targets value, (∀ t, t ∈ targets → isNameNode t = false) →
      var_node_issues (Node.assign targets value) = []) := by
  constructor
  · exact assign_target_issues_of_not_name
  · intro targets value h
    have h2 : var_node_issues (Node.assign targets value)
        = collect assign_target_issues targets [] := rfl
    rw [h2]
    exact collect_nil_of_all_nil _ _ (fun n hn => assign_target_issues_of_not_name n (h n hn))

/-- Claim C7 witness: a tuple target containing the invalid names `A` and
`b` yields no issue, and an `Assign` whose only target is such a tuple
yields no issue. -/
theorem c7_non_name_targets_witness :
    assign_target_issues (Node.tuple [Node.name "A", Node.name "b"]) = [] ∧
    var_node_issues (Node.assign [Node.tuple [Node.name "A"]] Node.const) = [] := by
  constructor
  · exact c7_non_name_targets.1 _ (by decide)
  · refine c7_non_name_targets.2 _ _ ?_
    intro t ht
    rw [List.mem_singleton] at ht
    subst ht
    decide

/-! ### Claim C8 -/

/-- Claim C8: on a fresh reviewer state, `run_checks` returns exactly the
concatenation of the four rules' own outputs, grouped by rule in the fixed
order function names, variable names, endpoint rules, resource lifecycle. -/
theorem c8_rule_order (code : String) (tree : Node) :
    (run_checks { code := code, issues := [], tree := tree }).issues =
      (check_function_names { code := code, issues := [], tree := tree }).issues ++
      (check_variable_names { code := code, issues := [], tree := tree }).issues ++
      (check_endpoint_rules { code := code, issues := [], tree := tree }).issues ++
      (check_db_session_rules { code := code, issues := [], tree := tree }).issues := by
  simp [run_checks_state, check_fn_state, check_var_state, check_ep_state, check_db_state,
    List.append_assoc]

/-! ### Claim C9 -/

/-- Claim C9: `run_checks` never changes the tree or the raw text; its only
effect is appending to the issue accumulator. -/
theorem c9_pure_frame (st : CodeReviewer) :
    (run_checks st).code = st.code ∧ (run_checks st).tree = st.tree ∧
      ∃ l, (run_checks st).issues = st.issues ++ l := by
  rw [run_checks_state]
  exact ⟨rfl, rfl, _, rfl⟩

/-! ### Claim C10 -/

/-- Claim C10: `run_checks` is not idempotent on an instance — running it a
second time on the state left by the first run returns the first run's
issues followed by the same issues again. -/
theorem c10_rerun_duplicates (code : String) (tree : Node) :
    (run_checks (run_checks { code := code, issues := [], tree := tree })).issues =
      (run_checks { code := code, issues := [], tree := tree }).issues ++
      (run_checks { code := code, issues := [], tree := tree }).issues := by
  simp [run_checks_state]

/-! ### Membership in the endpoint issues of one function -/

lemma ep_mem_parts (nm : String) (defaults decs body : List Node) (a b : Nat)
    (hroute : decs.any isRouteDec = true) (x : String) :
    x ∈ ep_node_issues (Node.functionDef nm defaults decs body a b) ↔
      ((x = epTryMsg nm ∧
          (walk (Node.functionDef nm defaults decs body a b)).any isTryNode = false) ∨
       (x = epJsonMsg nm ∧
          (walk (Node.functionDef nm defaults decs body a b)).any isJsonCall = false) ∨
       (x = epValMsg nm ∧ ∃ s rest, body = s :: rest ∧ isIfNode s = false)) := by
  rw [ep_node_issues_route nm defaults decs body a b hroute]
  cases h1 : (walk (Node.functionDef nm defaults decs body a b)).any isTryNode <;>
  cases h2 : (walk (Node.functionDef nm defaults decs body a b)).any isJsonCall <;>
  cases body with
  | nil => simp
  | cons s rest =>
    cases h3 : isIfNode s <;> simp [h3]

/-! ### Claim C1 -/

/-- Claim C1 (amended): every issue emitted by the Naming Rule has exactly
the text `Function name \`<name>\` must be lower_snake_case.` or
`Variable name \`<name>\` must be lower_snake_case.` for some name that
fails the Identifier Classifier — the offending name is enclosed in
backticks, not in single quotes. -/
theorem c1_naming_message_text (code : String) (tree : Node) (m : String)
    (hm : m ∈ (check_function_names { code := code, issues := [], tree := tree }).issues ++
        (check_variable_names { code := code, issues := [], tree := tree }).issues) :
    ∃ nm, is_snake_case nm = false ∧
      (m = "Function name `" ++ nm ++ "` must be lower_snake_case." ∨
       m = "Variable name `" ++ nm ++ "` must be lower_snake_case.") := by
  rw [List.mem_append] at hm
  cases hm with
  | inl h =>
    rw [show (check_function_names { code := code, issues := [], tree := tree }).issues
        = collect fn_node_issues (walk tree) [] from rfl, mem_collect] at h
    obtain ⟨n, -, hmn⟩ := h
    cases n <;> simp [fn_node_issues, fnMsg] at hmn
    case functionDef nm d dc bd a e =>
      exact ⟨nm, by simp [hmn.1], Or.inl hmn.2⟩
  | inr h =>
    rw [show (check_variable_names { code := code, issues := [], tree := tree }).issues
        = collect var_node_issues (walk tree) [] from rfl, mem_collect] at h
    obtain ⟨n, -, hmn⟩ := h
    cases n <;> simp [var_node_issues] at hmn
    case assign targets value =>
      rw [mem_collect] at hmn
      obtain ⟨t, -, hmt⟩ := hmn
      cases t <;> simp [assign_target_issues, varMsg] at hmt
      case name i =>
        exact ⟨i, by simp [hmt.1], Or.inr hmt.2⟩

/-- Claim C1 witness: the theorem applied to a module holding a function
named `FooBar` and the message the engine actually emits for it. -/
theorem c1_naming_message_text_witness :
    ∃ nm, is_snake_case nm = false ∧
      ("Function name `FooBar` must be lower_snake_case."
          = "Function name `" ++ nm ++ "` must be lower_snake_case." ∨
       "Function name `FooBar` must be lower_snake_case."
          = "Variable name `" ++ nm ++ "` must be lower_snake_case.") :=
  c1_naming_message_text "" (Node.module [Node.functionDef "FooBar" [] [] [] 1 1])
    "Function name `FooBar` must be lower_snake_case." (by decide)

/-- Claim C1 counterexample: for a function named `FooBar` the engine emits
the message with the name in backticks; the single-quoted text the claim
specifies is not among the issues. -/
theorem c1_counterexample :
    (check_function_names { code := "", issues := [],
                            tree := Node.module [Node.functionDef "FooBar" [] [] [] 1 1] }).issues
      = ["Function name `FooBar` must be lower_snake_case."] ∧
    ("Function name " ++ singleQuote ++ "FooBar" ++ singleQuote
        ++ " must be lower_snake_case.")
      ∉ (check_function_names { code := "", issues := [],
                                tree := Node.module [Node.functionDef "FooBar" [] [] [] 1 1] }).issues := by
  decide

/-! ### Claim C2 -/

/-- Claim C2 (amended): for an endpoint function the validation issue is
emitted iff the body is nonempty and its first statement is not an `If`
node; an empty body (which the external parser never produces) emits no
validation issue, contrary to the claimed disjunction. -/
theorem c2_validation_condition (nm : String) (defaults decs body : List Node) (a b : Nat)
    (hroute : decs.any isRouteDec = true) :
    epValMsg nm ∈ ep_node_issues (Node.functionDef nm defaults decs body a b) ↔
      ∃ s rest, body = s :: rest ∧ isIfNode s = false := by
  rw [ep_mem_parts nm defaults decs body a b hroute (epValMsg nm)]
  simp [Ne.symm (epTryMsg_ne_epValMsg nm), Ne.symm (epJsonMsg_ne_epValMsg nm)]

/-- Claim C2 witness: an endpoint whose body starts with an assignment
receives the validation issue. -/
theorem c2_validation_condition_witness :
    epValMsg "f" ∈ ep_node_issues (Node.functionDef "f" []
      [Node.call (Node.attributeAccess (Node.name "app") "route") []]
      [Node.assign [Node.name "x"] Node.const] 1 1) :=
  (c2_validation_condition "f" []
      [Node.call (Node.attributeAccess (Node.name "app") "route") []]
      [Node.assign [Node.name "x"] Node.const] 1 1 (by decide)).mpr
    ⟨Node.assign [Node.name "x"] Node.const, [], rfl, by decide⟩

/-- Claim C2 counterexample: an endpoint with an empty body receives the
try/except and JSON issues but no validation issue, although the claim
requires the validation issue whenever the body is empty. -/
theorem c2_counterexample :
    (check_endpoint_rules { code := "", issues := [],
                            tree := Node.module [Node.functionDef "f" []
                              [Node.call (Node.attributeAccess (Node.name "app") "route") []]
                              [] 1 1] }).issues
      = [epTryMsg "f", epJsonMsg "f"] ∧
    epValMsg "f" ∉ (check_endpoint_rules { code := "", issues := [],
                                           tree := Node.module [Node.functionDef "f" []
                                             [Node.call (Node.attributeAccess (Node.name "app") "route") []]
                                             [] 1 1] }).issues := by
  decide

/-! ### Claim C4 -/

/-- Claim C4 (amended): for an endpoint function the try/except and JSON
checks are evaluated over the entire function subtree (`ast.walk(node)`),
which includes decorator and default-argument expressions, not over the
body subtree only; since `Try` is a statement, the try check coincides with
a body-only search whenever decorators and defaults contain no `Try` node
(always the case for well-sorted Python trees), but the JSON check is
satisfied by `json`/`jsonify` calls occurring outside the body. -/
theorem c4_whole_subtree_scan (nm : String) (defaults decs body : List Node) (a b : Nat)
    (hroute : decs.any isRouteDec = true) :
    (epTryMsg nm ∈ ep_node_issues (Node.functionDef nm defaults decs body a b) ↔
      (walk (Node.functionDef nm defaults decs body a b)).any isTryNode = false)
    ∧ (epJsonMsg nm ∈ ep_node_issues (Node.functionDef nm defaults decs body a b) ↔
      (walk (Node.functionDef nm defaults decs body a b)).any isJsonCall = false)
    ∧ ((walkFrom defaults).any isTryNode = false →
       (walkFrom decs).any isTryNode = false →
       (walk (Node.functionDef nm defaults decs body a b)).any isTryNode
         = (walkFrom body).any isTryNode) := by
  refine ⟨?_, ?_, ?_⟩
  · rw [ep_mem_parts nm defaults decs body a b hroute (epTryMsg nm)]
    simp [epTryMsg_ne_epJsonMsg nm, epTryMsg_ne_epValMsg nm]
  · rw [ep_mem_parts nm defaults decs body a b hroute (epJsonMsg nm)]
    simp [Ne.symm (epTryMsg_ne_epJsonMsg nm), epJsonMsg_ne_epValMsg nm]
  · intro hd hdec
    rw [walk_any]
    have hch : children (Node.functionDef nm defaults decs body a b)
        = defaults ++ body ++ decs := rfl
    rw [hch, walkFrom_append_any, walkFrom_append_any, hd, hdec]
    simp [isTryNode]

/-- Claim C4 witness: the amended theorem applied to an endpoint whose only
`jsonify` call sits inside the decorator — the JSON issue is suppressed,
and the try search over the whole subtree agrees with the body-only one. -/
theorem c4_whole_subtree_scan_witness :
    epJsonMsg "g" ∉ ep_node_issues (Node.functionDef "g" []
      [Node.call (Node.attributeAccess (Node.name "app") "route")
        [Node.call (Node.name "jsonify") []]]
      [Node.assign [Node.name "x"] Node.const] 1 1) ∧
    (walk (Node.functionDef "g" []
      [Node.call (Node.attributeAccess (Node.name "app") "route")
        [Node.call (Node.name "jsonify") []]]
      [Node.assign [Node.name "x"] Node.const] 1 1)).any isTryNode
      = (walkFrom [Node.assign [Node.name "x"] Node.const]).any isTryNode := by
  constructor
  · intro hmem
    have h := (c4_whole_subtree_scan "g" []
      [Node.call (Node.attributeAccess (Node.name "app") "route")
        [Node.call (Node.name "jsonify") []]]
      [Node.assign [Node.name "x"] Node.const] 1 1 (by decide)).2.1.mp hmem
    exact absurd h (by decide)
  · exact (c4_whole_subtree_scan "g" []
      [Node.call (Node.attributeAccess (Node.name "app") "route")
        [Node.call (Node.name "jsonify") []]]
      [Node.assign [Node.name "x"] Node.const] 1 1 (by decide)).2.2
      (by decide) (by decide)

/-- Claim C4 counterexample: an endpoint whose body subtree contains no
`json`/`jsonify` call but whose decorator argument does: the claim requires
the JSON issue to be emitted, yet the engine does not emit it. -/
theorem c4_counterexample :
    (walkFrom [Node.assign [Node.name "x"] Node.const]).any isJsonCall = false ∧
    ([Node.call (Node.attributeAccess (Node.name "app") "route")
        [Node.call (Node.name "jsonify") []]].any isRouteDec = true) ∧
    epJsonMsg "g" ∉ ep_node_issues (Node.functionDef "g" []
      [Node.call (Node.attributeAccess (Node.name "app") "route")
        [Node.call (Node.name "jsonify") []]]
      [Node.assign [Node.name "x"] Node.const] 1 1) := by
  decide

/-! ### Claim C6 -/

/-- Claim C6: the three endpoint conditions are evaluated independently and
each failed condition contributes exactly one issue (counted by message);
in particular an endpoint whose body is a single assignment and whose
subtree has no `Try` node and no `json`/`jsonify` call receives exactly
three endpoint issues. -/
theorem c6_independent_conditions (nm : String) (defaults decs body : List Node) (a b : Nat)
    (hroute : decs.any isRouteDec = true) :
    ((ep_node_issues (Node.functionDef nm defaults decs body a b)).count (epTryMsg nm)
        = (if (walk (Node.functionDef nm defaults decs body a b)).any isTryNode
           then 0 else 1))
    ∧ ((ep_node_issues (Node.functionDef nm defaults decs body a b)).count (epJsonMsg nm)
        = (if (walk (Node.functionDef nm defaults decs body a b)).any isJsonCall
           then 0 else 1))
    ∧ ((ep_node_issues (Node.functionDef nm defaults decs body a b)).count (epValMsg nm)
        = (match body with
           | [] => 0
           | s :: _ => if isIfNode s then 0 else 1))
    ∧ (∀ ts v, body = [Node.assign ts v] →
        (walk (Node.functionDef nm defaults decs body a b)).any isTryNode = false →
        (walk (Node.functionDef nm defaults decs body a b)).any isJsonCall = false →
        (ep_node_issues (Node.functionDef nm defaults decs body a b)).length = 3) := by
  have hspec := ep_node_issues_route nm defaults decs body a b hroute
  refine ⟨?_, ?_, ?_, ?_⟩
  · rw [hspec]
    cases h1 : (walk (Node.functionDef nm defaults decs body a b)).any isTryNode <;>
    cases h2 : (walk (Node.functionDef nm defaults decs body a b)).any isJsonCall <;>
    cases body with
    | nil =>
      simp [List.count_cons, List.count_nil, beq_iff_eq,
        epTryMsg_ne_epJsonMsg nm, epTryMsg_ne_epValMsg nm]
    | cons s rest =>
      cases h3 : isIfNode s <;>
        simp [h3, List.count_cons, List.count_nil, beq_iff_eq,
          epTryMsg_ne_epJsonMsg nm, epTryMsg_ne_epValMsg nm]
  · rw [hspec]
    cases h1 : (walk (Node.functionDef nm defaults decs body a b)).any isTryNode <;>
    cases h2 : (walk (Node.functionDef nm defaults decs body a b)).any isJsonCall <;>
    cases body with
    | nil =>
      simp [List.count_cons, List.count_nil, beq_iff_eq,
        Ne.symm (epTryMsg_ne_epJsonMsg nm), epJsonMsg_ne_epValMsg nm]
    | cons s rest =>
      cases h3 : isIfNode s <;>
        simp [h3, List.count_cons, List.count_nil, beq_iff_eq,
          Ne.symm (epTryMsg_ne_epJsonMsg nm), epJsonMsg_ne_epValMsg nm]
  · rw [hspec]
    cases h1 : (walk (Node.functionDef nm defaults decs body a b)).any isTryNode <;>
    cases h2 : (walk (Node.functionDef nm defaults decs body a b)).any isJsonCall <;>
    cases body with
    | nil =>
      simp [List.count_cons, List.count_nil, beq_iff_eq,
        Ne.symm (epTryMsg_ne_epValMsg nm), Ne.symm (epJsonMsg_ne_epValMsg nm)]
    | cons s rest =>
      cases h3 : isIfNode s <;>
        simp [h3, List.count_cons, List.count_nil, beq_iff_eq,
          Ne.symm (epTryMsg_ne_epValMsg nm), Ne.symm (epJsonMsg_ne_epValMsg nm)]
  · intro ts v hbody h1 h2
    subst hbody
    rw [hspec, h1, h2]
    simp [isIfNode]

/-- Claim C6 witness: a route-decorated function whose body is the single
assignment `x = 1` receives exactly three endpoint issues. -/
theorem c6_independent_conditions_witness :
    (ep_node_issues (Node.functionDef "f" []
      [Node.call (Node.attributeAccess (Node.name "app") "route") []]
      [Node.assign [Node.name "x"] Node.const] 1 1)).length = 3 :=
  (c6_independent_conditions "f" []
      [Node.call (Node.attributeAccess (Node.name "app") "route") []]
      [Node.assign [Node.name "x"] Node.const] 1 1 (by decide)).2.2.2
    [Node.name "x"] Node.const rfl (by decide) (by decide)
